import Mathlib

/-!
Verification of the X11 startup-notification activation engine
(`src/platform_impl/linux/x11/activation.rs`) and its event-loop binding
(`examples/startup_notification.rs`).

The stateful X11 connection is embedded shallowly: each operation on the
connection becomes a pure function that returns the list of protocol
operations it performed (`XOp`) together with its result, and failure of
the underlying transport is injected through explicit oracle parameters
(`SendEnv`).  Machine integers (`u32`) are embedded as `Nat` with explicit
reduction `% 2 ^ 32` at each wrapping operation.
-/

/-- Byte value (a `u8` embedded as `Nat`). -/
abbrev Byte := Nat

/-- The xorshift32 step from the specification: `x ^= x << 13; x ^= x >> 17;
x ^= x << 5` on a 32-bit word.  Each assignment is reduced modulo `2 ^ 32`,
mirroring `u32` wrapping semantics. -/
def xorshift32 (x : Nat) : Nat :=
  let a := (x ^^^ x <<< 13) % 2 ^ 32
  let b := (a ^^^ a >>> 17) % 2 ^ 32
  (b ^^^ b <<< 5) % 2 ^ 32

/-- Model of `XConnection::x11_timestamp` (activation.rs lines 72-84).  The
atomic `SEED` cell becomes an explicit state argument: the function takes the
current seed and returns the pair (returned timestamp, new stored seed).  The
source loads the seed, applies the three xorshift assignments to a local `r`,
stores `r`, and returns the pre-advance seed wrapped in `Ok`. -/
def x11_timestamp (seed : Nat) : Nat × Nat :=
  let r0 := seed
  let r1 := (r0 ^^^ r0 <<< 13) % 2 ^ 32
  let r2 := (r1 ^^^ r1 >>> 17) % 2 ^ 32
  let r3 := (r2 ^^^ r2 <<< 5) % 2 ^ 32
  (seed, r3)

/-- Initial value of the `SEED` atomic in the source: `0xDEADBEEF`. -/
def SEED0 : Nat := 0xDEADBEEF

/-- The stored seed after `n` calls to `x11_timestamp`, starting from
`SEED0`. -/
def seedState : Nat → Nat
  | 0 => SEED0
  | n + 1 => (x11_timestamp (seedState n)).2

/-- The timestamp returned by the `n`-th call (0-based) to `x11_timestamp`. -/
def timestampVal (n : Nat) : Nat := (x11_timestamp (seedState n)).1

/-- Message type atom attached to a startup-notification chunk:
`_NET_STARTUP_INFO_BEGIN` for the first chunk, `_NET_STARTUP_INFO`
(continuation) for the rest. -/
inductive MsgType where
  | begin
  | continuation
deriving DecidableEq, Repr

/-- Fuel-driven core of `<[u8]>::chunks(20)`: splits a byte list into
consecutive windows of at most 20 bytes.  The fuel is instantiated with the
list length, making the recursion structural. -/
def chunksAux : Nat → List Byte → List (List Byte)
  | 0, _ => []
  | _, [] => []
  | fuel + 1, l => l.take 20 :: chunksAux fuel (l.drop 20)

/-- Model of `message.chunks(20)` from `send_message`. -/
def chunks20 (l : List Byte) : List (List Byte) := chunksAux l.length l

/-- Model of `let mut buffer = [0u8; 20]; buffer[..chunk.len()].copy_from_slice(chunk)`:
the chunk, zero-padded on the right to exactly 20 bytes. -/
def padTo20 (c : List Byte) : List Byte := c ++ List.replicate (20 - c.length) 0

/-- Model of the `map` in `send_message` that builds one client-message event
per chunk: the mutable `message_type` starts as the `begin` atom and is set to
`continuation` after the first event is built. -/
def tagChunks : List (List Byte) → MsgType → List (List Byte × MsgType)
  | [], _ => []
  | c :: cs, t => (padTo20 c, t) :: tagChunks cs MsgType.continuation

/-- The ordered sequence of (20-byte payload, message type) events that
`send_message` constructs for a message (activation.rs lines 119-132). -/
def chunkMessage (message : List Byte) : List (List Byte × MsgType) :=
  tagChunks (chunks20 message) MsgType.begin

/-- The `MESSAGE_ROOT` literal `"remove: ID="` from `remove_activation_token`,
as ASCII bytes. -/
def MESSAGE_ROOT : List Byte := "remove: ID=".toList.map Char.toNat

/-- Model of the message construction block in `remove_activation_token`
(activation.rs lines 54-66): `MESSAGE_ROOT ++ startup_id ++ "\0"` as bytes. -/
def build_message (startup_id : List Byte) : List Byte :=
  MESSAGE_ROOT ++ startup_id ++ [0]

/-- A protocol operation successfully performed on the X11 connection. -/
inductive XOp where
  | changeProperty (window : Nat) (data : List Byte)
  | createWindow (window : Nat)
  | sendEvent (window : Nat) (mtype : MsgType) (payload : List Byte)
  | destroyWindow (window : Nat)
deriving DecidableEq, Repr

/-- Failure-injection oracle for `send_message`: the window id produced by
`generate_id`, an optional error for the `generate_id` call, an optional error
for the `create_window` request, and an optional error for each `send_event`
request (indexed by chunk position).  Errors are opaque `Nat` codes. -/
structure SendEnv where
  windowId : Nat
  genIdErr : Option Nat
  createErr : Option Nat
  sendErr : Nat → Option Nat

/-- Model of the `try_for_each` send loop in `send_message`: sends the events
in order starting at chunk index `k`; stops at the first `send_event` failure
and returns its error.  The returned list holds the operations that were
performed. -/
def sendLoop (env : SendEnv) (window : Nat) :
    List (List Byte × MsgType) → Nat → List XOp × Option Nat
  | [], _ => ([], none)
  | e :: rest, k =>
    match env.sendErr k with
    | some err => ([], some err)
    | none =>
      let (ops, r) := sendLoop env window rest (k + 1)
      (XOp.sendEvent window e.2 e.1 :: ops, r)

/-- Model of `XConnection::send_message` (activation.rs lines 87-146).
`generate_id` or `create_window` failing aborts before the `CallOnDrop` guard
is registered; once the proxy window exists, the guard destroys it on every
exit path, so the trace ends with `destroyWindow` whether or not a chunk send
fails.  The result is `none` on success and the first encountered error
otherwise. -/
def send_message (env : SendEnv) (message : List Byte) : List XOp × Option Nat :=
  match env.genIdErr with
  | some e => ([], some e)
  | none =>
    match env.createErr with
    | some e => ([], some e)
    | none =>
      let (ops, r) := sendLoop env env.windowId (chunkMessage message) 0
      (XOp.createWindow env.windowId :: (ops ++ [XOp.destroyWindow env.windowId]), r)

/-- Model of `XConnection::remove_activation_token` (activation.rs lines
34-69): set and check the `_NET_STARTUP_ID` property on the window (failure
injected through `propErr`), then build and send the completion message.  If
the property operation fails, the function returns early and nothing is
sent. -/
def remove_activation_token (propErr : Option Nat) (env : SendEnv)
    (window : Nat) (startup_id : List Byte) : List XOp × Option Nat :=
  match propErr with
  | some e => ([], some e)
  | none =>
    let (ops, r) := send_message env (build_message startup_id)
    (XOp.changeProperty window startup_id :: ops, r)

/-- Decimal ASCII rendering of a natural number, as produced by Rust's
`Display` for unsigned integers. -/
def decBytes (n : Nat) : List Byte :=
  if n = 0 then [48] else ((Nat.digits 10 n).reverse.map (fun d => d + 48))

/-- The fallback hostname `"winit"` used when the uname node name is not
valid UTF-8, as ASCII bytes. -/
def WINIT_FALLBACK : List Byte := "winit".toList.map Char.toNat

/-- The literal `"_TIME"` separating the pid from the timestamp in the token
format string, as ASCII bytes. -/
def TIME_MARKER : List Byte := "_TIME".toList.map Char.toNat

/-- Model of `XConnection::request_activation_token` (activation.rs lines
17-31).  The environment is explicit: `hostname` is the uname node name when
it is valid UTF-8 (`none` models a non-UTF-8 name, for which the source falls
back to `"winit"`), `pid` is the process id, and `seed` is the current
timestamp seed.  Returns the token bytes of
`format!("{}{}_TIME{}", hostname, pid, time)` together with the advanced
seed; the source always returns `Ok`. -/
def request_activation_token (hostname : Option (List Byte)) (pid : Nat)
    (seed : Nat) : Except Nat (List Byte) × Nat :=
  let t := x11_timestamp seed
  (Except.ok ((hostname.getD WINIT_FALLBACK) ++ decBytes pid ++ TIME_MARKER
    ++ decBytes t.1), t.2)

/-- The token produced by the `n`-th call (0-based) to
`request_activation_token` from the initial seed, for a fixed hostname and
pid. -/
def tokenAt (hostname : Option (List Byte)) (pid : Nat) (n : Nat) :
    Except Nat (List Byte) :=
  (request_activation_token hostname pid (seedState n)).1

/-- State of the `startup_notification` example's event loop (times in
milliseconds): the pending token, the optional window-creation deadline, the
created windows (window id paired with the token attached at creation), the
window counter, and the debounce instant `last_window_created`. -/
structure AppState where
  currentToken : Option (List Byte)
  windowDeadline : Option Nat
  windows : List (Nat × Option (List Byte))
  counter : Nat
  lastWindowCreated : Nat
deriving DecidableEq, Repr

/-- Events delivered to the example's event loop. -/
inductive AppEvent where
  | keyN (windowId : Nat)
  | tokenDone (token : List Byte)
  | closeRequested (windowId : Nat)
  | other
deriving DecidableEq, Repr

/-- The `match event` arm of the example's event loop
(startup_notification.rs lines 42-102).  Returns the updated state and
whether `request_activation_token` was called on a window.  Pressing `n`
(debounced to 250 ms) on an existing window only requests a token and resets
the debounce instant; `ActivationTokenDone` arms `window_deadline = now + 2s`
and stores the token; `CloseRequested` removes the window. -/
def handleEvent (now : Nat) (st : AppState) (ev : AppEvent) : AppState × Bool :=
  match ev with
  | AppEvent.keyN wid =>
    if 250 < now - st.lastWindowCreated ∧ st.windows.any (fun w => w.1 == wid) then
      ({ st with lastWindowCreated := now }, true)
    else (st, false)
  | AppEvent.tokenDone tok =>
    ({ st with windowDeadline := some (now + 2000), currentToken := some tok }, false)
  | AppEvent.closeRequested wid =>
    ({ st with windows := st.windows.filter (fun w => w.1 != wid) }, false)
  | AppEvent.other => (st, false)

/-- The deadline check that runs after every event (startup_notification.rs
lines 104-123): if `window_deadline` has passed, create a window (taking and
attaching `current_token` if present, `none` otherwise), bump the counter and
clear the deadline.  Window ids are modelled by the counter value. -/
def deadlineCheck (now : Nat) (st : AppState) : AppState :=
  if st.windowDeadline.any (fun d => d ≤ now) then
    { currentToken := none
      windowDeadline := none
      windows := st.windows ++ [(st.counter, st.currentToken)]
      counter := st.counter + 1
      lastWindowCreated := st.lastWindowCreated }
  else st

/-- One full iteration of the example's event loop: handle the event, then
run the deadline check — except that a `CloseRequested` which empties the
window map exits the loop before the deadline check (lines 79-84). -/
def step (now : Nat) (st : AppState) (ev : AppEvent) : AppState × Bool :=
  let (st1, req) := handleEvent now st ev
  match ev, st1.windows with
  | AppEvent.closeRequested _, [] => (st1, req)
  | _, _ => (deadlineCheck now st1, req)

/-! ### Chunking lemmas -/

lemma chunksAux_nil (fuel : Nat) : chunksAux fuel [] = [] := by
  cases fuel <;> simp [chunksAux]

lemma chunksAux_cons (fuel : Nat) (l : List Byte) (hne : l ≠ []) :
    chunksAux (fuel + 1) l = l.take 20 :: chunksAux fuel (l.drop 20) := by
  cases l with
  | nil => exact absurd rfl hne
  | cons a as => rfl

lemma chunksAux_length : ∀ (fuel : Nat) (l : List Byte), l.length ≤ fuel →
    (chunksAux fuel l).length = (l.length + 19) / 20 := by
  intro fuel
  induction fuel with
  | zero =>
    intro l h
    have : l = [] := List.eq_nil_of_length_eq_zero (Nat.le_zero.mp h)
    subst this
    simp [chunksAux]
  | succ fuel ih =>
    intro l h
    rcases eq_or_ne l [] with rfl | hne
    · simp [chunksAux_nil]
    · have hL : 0 < l.length := List.length_pos.mpr hne
      have hlen : (l.drop 20).length ≤ fuel := by
        simp only [List.length_drop]
        omega
      rw [chunksAux_cons fuel l hne]
      simp only [List.length_cons, ih _ hlen, List.length_drop]
      omega

lemma chunksAux_mem_length : ∀ (fuel : Nat) (l : List Byte) (c : List Byte),
    c ∈ chunksAux fuel l → c.length ≤ 20 := by
  intro fuel
  induction fuel with
  | zero => intro l c h; simp [chunksAux] at h
  | succ fuel ih =>
    intro l c h
    rcases eq_or_ne l [] with rfl | hne
    · rw [chunksAux_nil] at h
      simp at h
    · rw [chunksAux_cons fuel l hne, List.mem_cons] at h
      rcases h with h | h
      · subst h
        simp [List.length_take]
      · exact ih _ _ h

lemma padTo20_length {c : List Byte} (h : c.length ≤ 20) : (padTo20 c).length = 20 := by
  simp [padTo20]
  omega

lemma chunksAux_flatten_take : ∀ (fuel : Nat) (l : List Byte), l.length ≤ fuel →
    (((chunksAux fuel l).map padTo20).flatten).take l.length = l := by
  intro fuel
  induction fuel with
  | zero =>
    intro l h
    have : l = [] := List.eq_nil_of_length_eq_zero (Nat.le_zero.mp h)
    subst this
    simp
  | succ fuel ih =>
    intro l h
    rcases eq_or_ne l [] with rfl | hne
    · simp [chunksAux_nil]
    · have hL : 0 < l.length := List.length_pos.mpr hne
      have htl : (l.take 20).length = min 20 l.length := List.length_take 20 l
      have hpadlen : (padTo20 (l.take 20)).length = 20 :=
        padTo20_length (by omega)
      rw [chunksAux_cons fuel l hne]
      simp only [List.map_cons, List.flatten_cons]
      rw [List.take_append_eq_append_take, hpadlen]
      by_cases hc : l.length ≤ 20
      · have hdrop : l.drop 20 = [] := List.drop_eq_nil_of_le hc
        rw [hdrop, chunksAux_nil]
        have h0 : l.length - 20 = 0 := by omega
        rw [h0]
        simp only [List.map_nil, List.flatten_nil, List.take_nil,
          List.take_zero, List.append_nil]
        have htake : l.take 20 = l := List.take_of_length_le hc
        unfold padTo20
        rw [htake, List.take_append_eq_append_take]
        have h00 : l.length - l.length = 0 := by omega
        rw [h00, List.take_length, List.take_zero, List.append_nil]
      · push_neg at hc
        have hdl : (l.drop 20).length ≤ fuel := by
          simp only [List.length_drop]
          omega
        have hih := ih (l.drop 20) hdl
        rw [List.length_drop] at hih
        have hpad : padTo20 (l.take 20) = l.take 20 := by
          unfold padTo20
          have h0 : 20 - (l.take 20).length = 0 := by omega
          rw [h0]
          simp
        rw [hpad, hih]
        have h20 : (l.take 20).length ≤ l.length := by omega
        rw [List.take_of_length_le h20]
        exact List.take_append_drop 20 l

lemma tagChunks_length : ∀ (cs : List (List Byte)) (t : MsgType),
    (tagChunks cs t).length = cs.length := by
  intro cs
  induction cs with
  | nil => intro t; rfl
  | cons c cs ih => intro t; simp [tagChunks, ih]

lemma tagChunks_map_fst : ∀ (cs : List (List Byte)) (t : MsgType),
    (tagChunks cs t).map Prod.fst = cs.map padTo20 := by
  intro cs
  induction cs with
  | nil => intro t; rfl
  | cons c cs ih => intro t; simp [tagChunks, ih]

lemma set_zero_replicate (n : Nat) (a : MsgType) :
    (List.replicate n a).set 0 a = List.replicate n a := by
  cases n <;> simp [List.replicate_succ]

lemma tagChunks_map_snd : ∀ (cs : List (List Byte)) (t : MsgType),
    (tagChunks cs t).map Prod.snd =
      (List.replicate cs.length MsgType.continuation).set 0 t := by
  intro cs
  induction cs with
  | nil => intro t; rfl
  | cons c cs ih =>
    intro t
    simp only [tagChunks, List.map_cons, ih, List.length_cons,
      List.replicate_succ, List.set_cons_zero]
    rw [set_zero_replicate]

/-- C1: for every byte buffer of length `L`, `chunkMessage` produces exactly
`ceil(L / 20)` chunks, each chunk payload is exactly 20 bytes, the
concatenation of the payloads right-trimmed to `L` bytes equals the original
buffer, and the first chunk is tagged `begin` while every subsequent chunk is
tagged `continuation`. -/
theorem chunking_correct (msg : List Byte) :
    (chunkMessage msg).length = (msg.length + 19) / 20 ∧
    (chunkMessage msg).map (fun c => c.1.length) =
      List.replicate ((msg.length + 19) / 20) 20 ∧
    (((chunkMessage msg).map Prod.fst).flatten).take msg.length = msg ∧
    (chunkMessage msg).map Prod.snd =
      (List.replicate ((msg.length + 19) / 20) MsgType.continuation).set 0
        MsgType.begin := by
  have hcount : (chunks20 msg).length = (msg.length + 19) / 20 :=
    chunksAux_length msg.length msg (Nat.le_refl _)
  refine ⟨?_, ?_, ?_, ?_⟩
  · rw [chunkMessage, tagChunks_length, hcount]
  · rw [chunkMessage]
    have hmm : (tagChunks (chunks20 msg) MsgType.begin).map (fun c => c.1.length) =
        ((tagChunks (chunks20 msg) MsgType.begin).map Prod.fst).map
          List.length := by
      simp [List.map_map, Function.comp]
    rw [hmm, tagChunks_map_fst]
    apply List.eq_replicate_iff.mpr
    constructor
    · simp [hcount]
    · intro b hb
      simp only [List.map_map, List.mem_map, Function.comp] at hb
      obtain ⟨c, hc, hbc⟩ := hb
      have := chunksAux_mem_length msg.length msg c hc
      rw [← hbc]
      exact padTo20_length this
  · rw [chunkMessage, tagChunks_map_fst]
    exact chunksAux_flatten_take msg.length msg (Nat.le_refl _)
  · rw [chunkMessage, tagChunks_map_snd, hcount]

/-! ### Timestamp generator -/

lemma seedState_eq : ∀ n, seedState n = xorshift32^[n] SEED0 := by
  intro n
  induction n with
  | zero => rfl
  | succ n ih =>
    rw [Function.iterate_succ_apply']
    show (x11_timestamp (seedState n)).2 = xorshift32 (xorshift32^[n] SEED0)
    rw [ih]
    rfl

lemma timestampVal_eq (n : Nat) : timestampVal n = xorshift32^[n] SEED0 := by
  rw [timestampVal]
  show seedState n = _
  exact seedState_eq n

/-- C2: every call to `x11_timestamp` returns the pre-advance seed and stores
the xorshift32 step (`x ^= x << 13; x ^= x >> 17; x ^= x << 5`) of it; from
the fixed initial seed the first returned value is `0xDEADBEEF`, the first
advanced value is one xorshift32 step applied to `0xDEADBEEF`, and the `n`-th
returned value is determined by the starting seed and the call count as the
`n`-fold iterate of the step. -/
theorem x11_timestamp_xorshift_spec :
    (∀ s, x11_timestamp s = (s, xorshift32 s)) ∧
    timestampVal 0 = 0xDEADBEEF ∧
    seedState 1 = xorshift32 0xDEADBEEF ∧
    ∀ n, timestampVal n = xorshift32^[n] 0xDEADBEEF := by
  refine ⟨fun s => rfl, rfl, rfl, fun n => timestampVal_eq n⟩

/-! ### Completion message format -/

/-- C4: the completion message for a startup id is exactly the ASCII bytes of
`"remove: ID="` followed by the id and a single null terminator; for the
token `"T123"` it is the 16 bytes of `"remove: ID=T123\0"`, which chunk into
exactly one 20-byte event (zero-padded) tagged `begin`. -/
theorem remove_message_format :
    (∀ sid : List Byte, build_message sid =
      [114, 101, 109, 111, 118, 101, 58, 32, 73, 68, 61] ++ sid ++ [0]) ∧
    build_message [84, 49, 50, 51] =
      [114, 101, 109, 111, 118, 101, 58, 32, 73, 68, 61, 84, 49, 50, 51, 0] ∧
    (build_message [84, 49, 50, 51]).length = 16 ∧
    chunkMessage (build_message [84, 49, 50, 51]) =
      [([114, 101, 109, 111, 118, 101, 58, 32, 73, 68, 61, 84, 49, 50, 51, 0,
         0, 0, 0, 0], MsgType.begin)] := by
  refine ⟨?_, by decide, by decide, by decide⟩
  intro sid
  show MESSAGE_ROOT ++ sid ++ [0] = _
  have hmr : MESSAGE_ROOT = [114, 101, 109, 111, 118, 101, 58, 32, 73, 68, 61] := by
    decide
  rw [hmr]

/-! ### Proxy channel: send loop lemmas -/

lemma sendLoop_mem (env : SendEnv) (w : Nat) :
    ∀ (events : List (List Byte × MsgType)) (k : Nat) (op : XOp),
      op ∈ (sendLoop env w events k).1 → ∃ t p, op = XOp.sendEvent w t p := by
  intro events
  induction events with
  | nil => intro k op h; simp [sendLoop] at h
  | cons ev rest ih =>
    intro k op h
    rcases herr : env.sendErr k with _ | err
    · simp only [sendLoop, herr, List.mem_cons] at h
      rcases h with h | h
      · exact ⟨ev.2, ev.1, h⟩
      · exact ih (k + 1) op h
    · simp [sendLoop, herr] at h

lemma sendLoop_ok (env : SendEnv) (w : Nat) :
    ∀ (events : List (List Byte × MsgType)) (k : Nat),
      (∀ j, j < events.length → env.sendErr (k + j) = none) →
      sendLoop env w events k =
        (events.map (fun ev => XOp.sendEvent w ev.2 ev.1), none) := by
  intro events
  induction events with
  | nil => intro k _; rfl
  | cons ev rest ih =>
    intro k h
    have hk : env.sendErr k = none := by
      have := h 0 (by simp)
      simpa using this
    have hrest : ∀ j, j < rest.length → env.sendErr (k + 1 + j) = none := by
      intro j hj
      have := h (j + 1) (by simp; omega)
      rwa [show k + (j + 1) = k + 1 + j by omega] at this
    simp [sendLoop, hk, ih (k + 1) hrest]

lemma sendLoop_fail (env : SendEnv) (w : Nat) :
    ∀ (events : List (List Byte × MsgType)) (k i : Nat) (e : Nat),
      i < events.length →
      (∀ j, j < i → env.sendErr (k + j) = none) →
      env.sendErr (k + i) = some e →
      sendLoop env w events k =
        ((events.take i).map (fun ev => XOp.sendEvent w ev.2 ev.1), some e) := by
  intro events
  induction events with
  | nil => intro k i e hi; simp at hi
  | cons ev rest ih =>
    intro k i e hi hok herr
    cases i with
    | zero =>
      have hk : env.sendErr k = some e := by simpa using herr
      simp [sendLoop, hk]
    | succ i =>
      have hk : env.sendErr k = none := by
        have := hok 0 (by omega)
        simpa using this
      have hok' : ∀ j, j < i → env.sendErr (k + 1 + j) = none := by
        intro j hj
        have := hok (j + 1) (by omega)
        rwa [show k + (j + 1) = k + 1 + j by omega] at this
      have herr' : env.sendErr (k + 1 + i) = some e := by
        rwa [show k + (i + 1) = k + 1 + i by omega] at herr
      have hi' : i < rest.length := by simpa using hi
      simp [sendLoop, hk, ih (k + 1) i e hi' hok' herr']

/-- C5: whenever `send_message` reaches creation of the proxy window (the
trace contains `createWindow`), the window is destroyed before the call
returns — the trace ends with `destroyWindow` — and this holds on every exit
path, both on success and on early return after a failed chunk send; no
execution creates the window more often than it destroys it. -/
theorem send_message_endpoint_cleanup :
    ∀ (env : SendEnv) (msg : List Byte),
      ((send_message env msg).1.contains (XOp.createWindow env.windowId) →
        (send_message env msg).1.getLast? = some (XOp.destroyWindow env.windowId)) ∧
      (send_message env msg).1.count (XOp.destroyWindow env.windowId) =
        (send_message env msg).1.count (XOp.createWindow env.windowId) := by
  intro env msg
  rcases hg : env.genIdErr with _ | e₁
  case some => simp [send_message, hg]
  rcases hc : env.createErr with _ | e₂
  case some => simp [send_message, hg, hc]
  have hshape : (send_message env msg).1 =
      XOp.createWindow env.windowId ::
        ((sendLoop env env.windowId (chunkMessage msg) 0).1 ++
          [XOp.destroyWindow env.windowId]) := by
    simp [send_message, hg, hc]
  have hmem := sendLoop_mem env env.windowId (chunkMessage msg) 0
  constructor
  · intro _
    rw [hshape]
    rw [show XOp.createWindow env.windowId ::
        ((sendLoop env env.windowId (chunkMessage msg) 0).1 ++
          [XOp.destroyWindow env.windowId]) =
        (XOp.createWindow env.windowId ::
          (sendLoop env env.windowId (chunkMessage msg) 0).1) ++
          [XOp.destroyWindow env.windowId] by simp]
    exact List.getLast?_concat _
  · rw [hshape]
    have hnd : (sendLoop env env.windowId (chunkMessage msg) 0).1.count
        (XOp.destroyWindow env.windowId) = 0 := by
      apply List.count_eq_zero.mpr
      intro hmem'
      obtain ⟨t, p, hop⟩ := hmem _ hmem'
      exact XOp.noConfusion hop
    have hnc : (sendLoop env env.windowId (chunkMessage msg) 0).1.count
        (XOp.createWindow env.windowId) = 0 := by
      apply List.count_eq_zero.mpr
      intro hmem'
      obtain ⟨t, p, hop⟩ := hmem _ hmem'
      exact XOp.noConfusion hop
    simp [List.count_cons, List.count_append, hnd, hnc]

/-- C6: if the `j`-th chunk send is the first to fail, `send_message` sends
exactly the chunks before it and no further ones, still destroys the proxy
window, and returns that first error; if every chunk send succeeds it returns
success. -/
theorem send_message_first_error :
    (∀ (env : SendEnv) (msg : List Byte) (i e : Nat),
      env.genIdErr = none → env.createErr = none →
      i < (chunkMessage msg).length →
      (∀ j, j < i → env.sendErr j = none) →
      env.sendErr i = some e →
      (send_message env msg).2 = some e ∧
      (send_message env msg).1 = XOp.createWindow env.windowId ::
        (((chunkMessage msg).take i).map
            (fun ev => XOp.sendEvent env.windowId ev.2 ev.1) ++
          [XOp.destroyWindow env.windowId])) ∧
    (∀ (env : SendEnv) (msg : List Byte),
      env.genIdErr = none → env.createErr = none →
      (∀ j, j < (chunkMessage msg).length → env.sendErr j = none) →
      (send_message env msg).2 = none) := by
  constructor
  · intro env msg i e hg hc hi hok herr
    have hfail := sendLoop_fail env env.windowId (chunkMessage msg) 0 i e hi
      (fun j hj => by simpa using hok j hj) (by simpa using herr)
    constructor
    · simp [send_message, hg, hc, hfail]
    · simp [send_message, hg, hc, hfail]
  · intro env msg hg hc hok
    have hsucc := sendLoop_ok env env.windowId (chunkMessage msg) 0
      (fun j hj => by simpa using hok j hj)
    simp [send_message, hg, hc, hsucc]

/-- Witness for `send_message_endpoint_cleanup` at a concrete environment and
message. -/
theorem send_message_endpoint_cleanup_witness :
    (send_message ⟨7, none, none, fun _ => none⟩ [1, 2, 3]).1.getLast? =
      some (XOp.destroyWindow 7) :=
  (send_message_endpoint_cleanup ⟨7, none, none, fun _ => none⟩ [1, 2, 3]).1
    (by decide)

/-- Witness for `send_message_first_error`: a 30-byte message chunks into two
events; the send of chunk 1 fails with error 42, so only chunk 0 is sent, the
proxy window is still destroyed, and the call returns error 42. -/
theorem send_message_first_error_witness :
    (send_message ⟨3, none, none, fun j => if j = 1 then some 42 else none⟩
        (List.replicate 30 5)).2 = some 42 :=
  (send_message_first_error.1
    ⟨3, none, none, fun j => if j = 1 then some 42 else none⟩
    (List.replicate 30 5) 1 42 rfl rfl (by decide)
    (fun j hj => by
      have : j = 0 := by omega
      subst this
      rfl)
    rfl).1

/-! ### Completion ordering -/

/-- C9: in every execution of `remove_activation_token`, the
`_NET_STARTUP_ID` property carrying the startup id is set (and checked) on
the target window strictly before any chunk of the completion message is
sent: if the property operation fails, the trace is empty (nothing is sent)
and the error is returned; otherwise the first trace entry is the property
change and every `sendEvent` occurs strictly later. -/
theorem remove_property_before_message :
    (∀ (e : Nat) (env : SendEnv) (w : Nat) (sid : List Byte),
      remove_activation_token (some e) env w sid = ([], some e)) ∧
    (∀ (env : SendEnv) (w : Nat) (sid : List Byte),
      (remove_activation_token none env w sid).1.get? 0 =
        some (XOp.changeProperty w sid) ∧
      ∀ (k wid : Nat) (t : MsgType) (p : List Byte),
        (remove_activation_token none env w sid).1.get? k =
          some (XOp.sendEvent wid t p) → 0 < k) := by
  constructor
  · intro e env w sid
    rfl
  · intro env w sid
    have hshape : (remove_activation_token none env w sid).1 =
        XOp.changeProperty w sid :: (send_message env (build_message sid)).1 := by
      simp [remove_activation_token]
    constructor
    · rw [hshape]
      rfl
    · intro k wid t p hk
      cases k with
      | zero =>
        rw [hshape] at hk
        simp at hk
      | succ k => omega

/-- Witness for `remove_property_before_message` at a concrete environment:
the property change is the first operation and the first chunk send is at
position 1. -/
theorem remove_property_before_message_witness :
    (remove_activation_token none ⟨9, none, none, fun _ => none⟩ 5
        [84, 49, 50, 51]).1.get? 0 = some (XOp.changeProperty 5 [84, 49, 50, 51]) :=
  ((remove_property_before_message.2 ⟨9, none, none, fun _ => none⟩ 5
    [84, 49, 50, 51]).1)

/-! ### Event-loop binding (startup_notification example) -/

/-- Counterexample to C7 as stated: from an idle state with one window (no
pending token, no deadline), the explicit trigger (pressing `n` at t = 1000
ms) does request a token but does NOT arm a deadline of now + 2s — the
deadline stays `none` — and a later event-loop tick at t = 4000 ms (well past
the claimed deadline) creates no window at all, instead of creating an
untagged window. -/
theorem trigger_without_deadline_cex :
    ((step 1000 ⟨none, none, [(0, none)], 1, 0⟩ (AppEvent.keyN 0)).2 = true) ∧
    ((step 1000 ⟨none, none, [(0, none)], 1, 0⟩ (AppEvent.keyN 0)).1.windowDeadline
      = none) ∧
    ((step 4000 (step 1000 ⟨none, none, [(0, none)], 1, 0⟩ (AppEvent.keyN 0)).1
        AppEvent.other).1.windows = [(0, none)]) := by
  decide

/-- C7 (amended): in the example's event loop, an explicit trigger (pressing
`n` on an existing window, debounced to 250 ms) only requests a token and
leaves the deadline unarmed; the deadline `now + 2s` is armed when the token
event arrives, which also stores the token; the first tick at or past an
armed deadline creates a window tagged with the stored token (untagged when
none is stored) and returns to the idle state; while no deadline is armed, a
tick creates no window. -/
theorem event_loop_deadline_behavior :
    (∀ (now : Nat) (st : AppState) (wid : Nat),
      st.windowDeadline = none →
      250 < now - st.lastWindowCreated →
      st.windows.any (fun w => w.1 == wid) = true →
      step now st (AppEvent.keyN wid) =
        ({ st with lastWindowCreated := now }, true)) ∧
    (∀ (now : Nat) (st : AppState) (tok : List Byte),
      step now st (AppEvent.tokenDone tok) =
        ({ st with
            currentToken := some tok
            windowDeadline := some (now + 2000) }, false)) ∧
    (∀ (now : Nat) (st : AppState) (d : Nat),
      st.windowDeadline = some d → d ≤ now →
      (step now st AppEvent.other).1 =
        { currentToken := none, windowDeadline := none,
          windows := st.windows ++ [(st.counter, st.currentToken)],
          counter := st.counter + 1,
          lastWindowCreated := st.lastWindowCreated }) ∧
    (∀ (now : Nat) (st : AppState),
      st.windowDeadline = none → (step now st AppEvent.other).1 = st) := by
  refine ⟨?_, ?_, ?_, ?_⟩
  · intro now st wid hdl hdeb hany
    simp [step, handleEvent, deadlineCheck, hdl, hdeb, hany]
  · intro now st tok
    have hlt : ¬ (now + 2000 ≤ now) := by omega
    simp [step, handleEvent, deadlineCheck, hlt]
  · intro now st d hd hle
    simp [step, handleEvent, deadlineCheck, hd, hle]
  · intro now st hdl
    simp [step, handleEvent, deadlineCheck, hdl]

/-- Witness for `event_loop_deadline_behavior`: the trigger branch and the
expired-deadline branch evaluated at concrete states. -/
theorem event_loop_deadline_behavior_witness :
    step 1000 ⟨none, none, [(0, none)], 1, 0⟩ (AppEvent.keyN 0) =
      (⟨none, none, [(0, none)], 1, 1000⟩, true) ∧
    (step 2500 ⟨some [84], some 2500, [(0, none)], 1, 0⟩ AppEvent.other).1 =
      ⟨none, none, [(0, none), (1, some [84])], 2, 0⟩ :=
  ⟨event_loop_deadline_behavior.1 1000 ⟨none, none, [(0, none)], 1, 0⟩ 0 rfl
      (by decide) (by decide),
    event_loop_deadline_behavior.2.2.1 2500 ⟨some [84], some 2500, [(0, none)], 1, 0⟩
      2500 rfl (by decide)⟩

/-! ### Token format -/

/-- C8: the token is composed exactly as `<hostname><pid>_TIME<timestamp>`
(the marker `[95, 84, 73, 77, 69]` is the ASCII of `"_TIME"`), with no other
separators; the only environment condition that can fail is a hostname that
is not valid UTF-8, and in that case the fixed placeholder `"winit"` (ASCII
`[119, 105, 110, 105, 116]`) is substituted and the call still succeeds
rather than aborting or returning an error. -/
theorem activation_token_format :
    (∀ (host : List Byte) (pid seed : Nat),
      (request_activation_token (some host) pid seed).1 =
        Except.ok (host ++ decBytes pid ++ [95, 84, 73, 77, 69] ++
          decBytes (x11_timestamp seed).1)) ∧
    (∀ (pid seed : Nat),
      (request_activation_token none pid seed).1 =
        Except.ok ([119, 105, 110, 105, 116] ++ decBytes pid ++
          [95, 84, 73, 77, 69] ++ decBytes (x11_timestamp seed).1)) :=
  ⟨fun _ _ _ => rfl, fun _ _ => rfl⟩

/-- C10: the token-request operation never returns its error variant — for
every hostname condition, pid and seed it returns `ok` — and a hostname that
is not representable as UTF-8 is silently replaced by the placeholder
`"winit"` instead of surfacing an error. -/
theorem request_activation_token_never_fails :
    (∀ (hostname : Option (List Byte)) (pid seed : Nat),
      ∃ tok, (request_activation_token hostname pid seed).1 = Except.ok tok) ∧
    (∀ (pid seed : Nat), ∃ rest,
      (request_activation_token none pid seed).1 =
        Except.ok (WINIT_FALLBACK ++ rest)) :=
  ⟨fun _ _ _ => ⟨_, rfl⟩, fun pid seed =>
    ⟨decBytes pid ++ TIME_MARKER ++ decBytes (x11_timestamp seed).1, by
      show Except.ok (WINIT_FALLBACK ++ decBytes pid ++ TIME_MARKER ++
        decBytes (x11_timestamp seed).1) = _
      rw [List.append_assoc, List.append_assoc, List.append_assoc]⟩⟩

/-! ### Decimal rendering is injective -/

lemma decBytes_inj : ∀ a b : Nat, decBytes a = decBytes b → a = b := by
  have hof : ∀ n : Nat, Nat.digits 10 n = [0] → n = 0 := by
    intro n hd
    have := Nat.ofDigits_digits 10 n
    rw [hd] at this
    simpa [Nat.ofDigits] using this.symm
  have hsing : ∀ n : Nat, n ≠ 0 →
      (Nat.digits 10 n).reverse.map (fun d => d + 48) ≠ [48] := by
    intro n hn h
    rcases hrev : (Nat.digits 10 n).reverse with _ | ⟨d, rest⟩
    · rw [hrev] at h
      simp at h
    · rw [hrev] at h
      simp only [List.map_cons, List.cons.injEq] at h
      obtain ⟨hd48, hrest⟩ := h
      have hd0 : d = 0 := by omega
      have hrest0 : rest = [] := List.map_eq_nil_iff.mp hrest
      subst hd0 hrest0
      have : Nat.digits 10 n = [0] := by
        have := congrArg List.reverse hrev
        simpa using this
      exact hn (hof n this)
  intro a b h
  by_cases ha : a = 0 <;> by_cases hb : b = 0
  · rw [ha, hb]
  · exfalso
    rw [decBytes, decBytes, if_pos ha, if_neg hb] at h
    exact hsing b hb h.symm
  · exfalso
    rw [decBytes, decBytes, if_neg ha, if_pos hb] at h
    exact hsing a ha h
  · rw [decBytes, decBytes, if_neg ha, if_neg hb] at h
    have hinj : Function.Injective (fun d : Nat => d + 48) := by
      intro x y hxy
      simp only [Nat.add_right_cancel_iff] at hxy
      exact hxy
    have hmap := List.map_injective_iff.mpr hinj h
    have hd : Nat.digits 10 a = Nat.digits 10 b :=
      List.reverse_injective hmap
    have := congrArg (Nat.ofDigits 10) hd
    rwa [Nat.ofDigits_digits, Nat.ofDigits_digits] at this

/-! ### The xorshift32 step as an F2-linear map

The step is linear over GF(2): it commutes with bitwise xor.  We represent
its action on the 32-dimensional bit space by the list of its values on the
basis vectors `2 ^ j` and verify its order with verified matrix
exponentiation, which yields the full-period property of the generator. -/

lemma xor_mod_two_pow (a b n : Nat) :
    (a ^^^ b) % 2 ^ n = a % 2 ^ n ^^^ b % 2 ^ n := by
  apply Nat.eq_of_testBit_eq
  intro i
  simp only [Nat.testBit_mod_two_pow, Nat.testBit_xor]
  cases h : decide (i < n) <;> simp

lemma xor_shiftLeft_distrib (a b k : Nat) :
    (a ^^^ b) <<< k = a <<< k ^^^ b <<< k := by
  apply Nat.eq_of_testBit_eq
  intro i
  simp only [Nat.testBit_shiftLeft, Nat.testBit_xor]
  cases h : decide (k ≤ i) <;> simp

lemma xor_shiftRight_distrib (a b k : Nat) :
    (a ^^^ b) >>> k = a >>> k ^^^ b >>> k := by
  apply Nat.eq_of_testBit_eq
  intro i
  simp [Nat.testBit_shiftRight, Nat.testBit_xor]

lemma xor_xor_xor_comm (p q r s : Nat) :
    (p ^^^ q) ^^^ (r ^^^ s) = (p ^^^ r) ^^^ (q ^^^ s) := by
  apply Nat.eq_of_testBit_eq
  intro i
  simp only [Nat.testBit_xor]
  cases p.testBit i <;> cases q.testBit i <;> cases r.testBit i <;>
    cases s.testBit i <;> rfl

/-- One left-shift-xor assignment of the xorshift step, on a 32-bit word. -/
def sL (k x : Nat) : Nat := (x ^^^ x <<< k) % 2 ^ 32

/-- One right-shift-xor assignment of the xorshift step, on a 32-bit word. -/
def sR (k x : Nat) : Nat := (x ^^^ x >>> k) % 2 ^ 32

lemma xorshift32_eq_comp (x : Nat) : xorshift32 x = sL 5 (sR 17 (sL 13 x)) := rfl

lemma sL_linear (k x y : Nat) : sL k (x ^^^ y) = sL k x ^^^ sL k y := by
  unfold sL
  rw [xor_shiftLeft_distrib, xor_xor_xor_comm, xor_mod_two_pow]

lemma sR_linear (k x y : Nat) : sR k (x ^^^ y) = sR k x ^^^ sR k y := by
  unfold sR
  rw [xor_shiftRight_distrib, xor_xor_xor_comm, xor_mod_two_pow]

lemma xorshift32_linear (x y : Nat) :
    xorshift32 (x ^^^ y) = xorshift32 x ^^^ xorshift32 y := by
  simp only [xorshift32_eq_comp, sL_linear, sR_linear]

lemma xorshift32_zero : xorshift32 0 = 0 := by decide

lemma xorshift32_lt (x : Nat) : xorshift32 x < 2 ^ 32 := by
  rw [xorshift32_eq_comp]
  unfold sL
  exact Nat.mod_lt _ (by norm_num)

/-- Application of an F2-linear map to a bit vector: `cols` lists the images
of the basis vectors `1, 2, 4, ...`, and bit `t` of `v` selects column `t`;
the result is the xor of the selected columns. -/
def mulVec : List Nat → Nat → Nat
  | [], _ => 0
  | c :: cs, v => (if v % 2 = 1 then c else 0) ^^^ mulVec cs (v / 2)

/-- Composition of two column-represented linear maps (matrix product). -/
def mulMat (A B : List Nat) : List Nat := B.map (mulVec A)

/-- Columns of the identity on 32 bits. -/
def idMat : List Nat := (List.range 32).map (fun j => 2 ^ j)

/-- Columns of the xorshift32 step on 32 bits. -/
def xsMat : List Nat := (List.range 32).map (fun j => xorshift32 (2 ^ j))

/-- Fuel-bounded binary exponentiation of a column-represented linear map. -/
def powMat (A : List Nat) : Nat → Nat → List Nat
  | 0, _ => idMat
  | fuel + 1, n =>
    if n = 0 then idMat
    else
      let h := powMat A fuel (n / 2)
      let h2 := mulMat h h
      if n % 2 = 1 then mulMat A h2 else h2

lemma mulVec_zero (A : List Nat) : mulVec A 0 = 0 := by
  induction A with
  | nil => rfl
  | cons c cs ih => simp [mulVec, ih]

lemma mulVec_linear (A : List Nat) :
    ∀ v w, mulVec A (v ^^^ w) = mulVec A v ^^^ mulVec A w := by
  induction A with
  | nil => intro v w; simp [mulVec]
  | cons c cs ih =>
    intro v w
    simp only [mulVec]
    rw [Nat.xor_div_two, ih]
    rw [xor_xor_xor_comm]
    congr 1
    rcases Nat.mod_two_eq_zero_or_one v with hv | hv <;>
      rcases Nat.mod_two_eq_zero_or_one w with hw | hw <;>
        (simp [hv, hw, Nat.xor_mod_two_eq_one]
         try intro hcon
         try omega)

lemma mulVec_lt (A : List Nat) (hA : ∀ c ∈ A, c < 2 ^ 32) :
    ∀ v, mulVec A v < 2 ^ 32 := by
  induction A with
  | nil => intro v; simp [mulVec]
  | cons c cs ih =>
    intro v
    apply Nat.xor_lt_two_pow
    · by_cases h : v % 2 = 1
      · simpa [h] using hA c (by simp)
      · simp [h]
    · exact ih (fun d hd => hA d (by simp [hd])) (v / 2)

lemma two_pow_add_shiftLeft (j a : Nat) :
    2 ^ j + a <<< (j + 1) = 2 ^ j ^^^ a <<< (j + 1) := by
  apply Nat.eq_of_testBit_eq
  intro i
  have hb : (2 : Nat) ^ j < 2 ^ (j + 1) :=
    Nat.pow_lt_pow_right (by norm_num) (by omega)
  have hL : 2 ^ j + a <<< (j + 1) = 2 ^ (j + 1) * a + 2 ^ j := by
    rw [Nat.shiftLeft_eq]
    ring
  rw [hL, Nat.testBit_mul_pow_two_add a hb i]
  simp only [Nat.testBit_xor, Nat.testBit_shiftLeft, Nat.testBit_two_pow]
  by_cases hij : i < j + 1
  · have : ¬ (j + 1 ≤ i) := by omega
    simp [hij, this]
  · have h1 : j + 1 ≤ i := by omega
    have h2 : ¬ (j = i) := by omega
    simp [hij, h1, h2]

lemma mod_two_pow_split (v k : Nat) :
    v % 2 ^ (k + 1) = v % 2 + 2 * (v / 2 % 2 ^ k) := by
  rw [Nat.pow_succ']
  exact Nat.mod_mul

lemma shiftLeft_split (v k j : Nat) :
    (v % 2 ^ (k + 1)) <<< j = ((v % 2) <<< j) ^^^ ((v / 2 % 2 ^ k) <<< (j + 1)) := by
  rw [mod_two_pow_split]
  rcases Nat.mod_two_eq_zero_or_one v with hv | hv
  · rw [hv]
    simp only [Nat.zero_add, Nat.zero_shiftLeft, Nat.zero_xor]
    rw [Nat.shiftLeft_eq, Nat.shiftLeft_eq, Nat.pow_succ]
    ring
  · rw [hv]
    have h1 : (1 + 2 * (v / 2 % 2 ^ k)) <<< j =
        2 ^ j + (v / 2 % 2 ^ k) <<< (j + 1) := by
      rw [Nat.shiftLeft_eq, Nat.shiftLeft_eq]
      rw [Nat.pow_succ]
      ring
    rw [h1, two_pow_add_shiftLeft]
    congr 1
    rw [Nat.shiftLeft_eq]
    omega

lemma mulVec_map_range (g : Nat → Nat) (hg : ∀ a b, g (a ^^^ b) = g a ^^^ g b)
    (hg0 : g 0 = 0) :
    ∀ (k j v : Nat),
      mulVec ((List.range k).map (fun t => g (2 ^ (j + t)))) v =
        g ((v % 2 ^ k) <<< j) := by
  intro k
  induction k with
  | zero =>
    intro j v
    simp [mulVec, hg0, Nat.mod_one]
  | succ k ih =>
    intro j v
    rw [List.range_succ_eq_map]
    simp only [List.map_cons, List.map_map]
    have hcomp : ((fun t => g (2 ^ (j + t))) ∘ Nat.succ) =
        (fun t => g (2 ^ ((j + 1) + t))) := by
      funext t
      simp only [Function.comp]
      congr 2
      omega
    rw [show mulVec ((g (2 ^ (j + 0)) :: (List.range k).map
          ((fun t => g (2 ^ (j + t))) ∘ Nat.succ))) v =
        (if v % 2 = 1 then g (2 ^ (j + 0)) else 0) ^^^
          mulVec ((List.range k).map ((fun t => g (2 ^ (j + t))) ∘ Nat.succ))
            (v / 2) from rfl]
    rw [hcomp, ih (j + 1) (v / 2), shiftLeft_split v k j, hg]
    congr 1
    rcases Nat.mod_two_eq_zero_or_one v with hv | hv
    · simp [hv, hg0]
    · rw [hv]
      have h1 : (1 : Nat) <<< j = 2 ^ (j + 0) := by
        rw [Nat.shiftLeft_eq, Nat.add_zero]
        omega
      rw [h1]
      simp

lemma mulVec_mulMat (A B : List Nat) :
    ∀ v, mulVec (mulMat A B) v = mulVec A (mulVec B v) := by
  induction B with
  | nil =>
    intro v
    simp [mulMat, mulVec, mulVec_zero]
  | cons c cs ih =>
    intro v
    simp only [mulMat, List.map_cons, mulVec]
    rw [mulVec_linear]
    have hmm : mulMat A cs = cs.map (mulVec A) := rfl
    rw [← hmm, ih]
    congr 1
    by_cases h : v % 2 = 1
    · simp [h]
    · simp [h, mulVec_zero]

lemma mulVec_idMat (v : Nat) (hv : v < 2 ^ 32) : mulVec idMat v = v := by
  have h := mulVec_map_range (fun x => x) (fun a b => rfl) rfl 32 0 v
  have hfun : ((List.range 32).map (fun t => 2 ^ (0 + t))) = idMat := by
    unfold idMat
    apply List.map_congr_left
    intro t _
    rw [Nat.zero_add]
  rw [hfun] at h
  rw [h, Nat.shiftLeft_zero, Nat.mod_eq_of_lt hv]

lemma mulVec_xsMat (v : Nat) (hv : v < 2 ^ 32) : mulVec xsMat v = xorshift32 v := by
  have h := mulVec_map_range xorshift32 xorshift32_linear xorshift32_zero 32 0 v
  have hfun : ((List.range 32).map (fun t => xorshift32 (2 ^ (0 + t)))) = xsMat := by
    unfold xsMat
    apply List.map_congr_left
    intro t _
    rw [Nat.zero_add]
  rw [hfun] at h
  rw [h, Nat.shiftLeft_zero, Nat.mod_eq_of_lt hv]

lemma iterate_mulVec_lt (A : List Nat) (hA : ∀ c ∈ A, c < 2 ^ 32) :
    ∀ (m : Nat) (w : Nat), w < 2 ^ 32 → (mulVec A)^[m] w < 2 ^ 32 := by
  intro m
  induction m with
  | zero => intro w hw; simpa using hw
  | succ m ihm =>
    intro w hw
    rw [Function.iterate_succ_apply]
    exact ihm _ (mulVec_lt A hA w)

lemma mulVec_powMat (A : List Nat) (hA : ∀ c ∈ A, c < 2 ^ 32) :
    ∀ (fuel n : Nat), n < 2 ^ fuel → ∀ v, v < 2 ^ 32 →
      mulVec (powMat A fuel n) v = (mulVec A)^[n] v := by
  intro fuel
  induction fuel with
  | zero =>
    intro n hn v hv
    have hn0 : n = 0 := by omega
    subst hn0
    simpa [powMat] using mulVec_idMat v hv
  | succ fuel ih =>
    intro n hn v hv
    by_cases h0 : n = 0
    · subst h0
      simpa [powMat] using mulVec_idMat v hv
    · have hpow : 2 ^ (fuel + 1) = 2 * 2 ^ fuel := by
        rw [Nat.pow_succ']
      have hhalf : n / 2 < 2 ^ fuel := by omega
      have hsq : ∀ w, w < 2 ^ 32 →
          mulVec (mulMat (powMat A fuel (n / 2)) (powMat A fuel (n / 2))) w =
            (mulVec A)^[n / 2] ((mulVec A)^[n / 2] w) := by
        intro w hw
        rw [mulVec_mulMat, ih _ hhalf w hw,
          ih _ hhalf _ (iterate_mulVec_lt A hA _ w hw)]
      by_cases hpar : n % 2 = 1
      · have hstep : powMat A (fuel + 1) n =
            mulMat A (mulMat (powMat A fuel (n / 2)) (powMat A fuel (n / 2))) := by
          simp [powMat, h0, hpar]
        rw [hstep, mulVec_mulMat, hsq v hv]
        have hsplit : n = (n / 2 + n / 2) + 1 := by omega
        conv_rhs => rw [hsplit]
        rw [Function.iterate_succ_apply', Function.iterate_add_apply]
      · have hstep : powMat A (fuel + 1) n =
            mulMat (powMat A fuel (n / 2)) (powMat A fuel (n / 2)) := by
          simp [powMat, h0, hpar]
        rw [hstep, hsq v hv]
        have hsplit : n = n / 2 + n / 2 := by omega
        conv_rhs => rw [hsplit]
        rw [Function.iterate_add_apply]

lemma xsMat_entries_lt : ∀ c ∈ xsMat, c < 2 ^ 32 := by
  intro c hc
  simp only [xsMat, List.mem_map] at hc
  obtain ⟨j, _, rfl⟩ := hc
  exact xorshift32_lt _

/-! ### Verified computations: the order of the xorshift32 step is exactly
`2 ^ 32 - 1 = 3 * 5 * 17 * 257 * 65537` on the orbit of the seed, and the
step is invertible. -/

set_option maxRecDepth 10000 in
lemma xs_cycle_full : mulVec (powMat xsMat 32 4294967295) SEED0 = SEED0 := by
  decide

set_option maxRecDepth 10000 in
lemma xs_cof3 : mulVec (powMat xsMat 32 1431655765) SEED0 ≠ SEED0 := by
  decide

set_option maxRecDepth 10000 in
lemma xs_cof5 : mulVec (powMat xsMat 32 858993459) SEED0 ≠ SEED0 := by
  decide

set_option maxRecDepth 10000 in
lemma xs_cof17 : mulVec (powMat xsMat 32 252645135) SEED0 ≠ SEED0 := by
  decide

set_option maxRecDepth 10000 in
lemma xs_cof257 : mulVec (powMat xsMat 32 16711935) SEED0 ≠ SEED0 := by
  decide

set_option maxRecDepth 10000 in
lemma xs_cof65537 : mulVec (powMat xsMat 32 65535) SEED0 ≠ SEED0 := by
  decide

set_option maxRecDepth 10000 in
lemma xs_left_inverse : mulMat (powMat xsMat 32 4294967294) xsMat = idMat := by
  decide

/-! ### Injectivity and orbit structure -/

lemma xorshift32_inj (x y : Nat) (hx : x < 2 ^ 32) (hy : y < 2 ^ 32)
    (h : xorshift32 x = xorshift32 y) : x = y := by
  have hx' := mulVec_mulMat (powMat xsMat 32 4294967294) xsMat x
  rw [xs_left_inverse, mulVec_idMat x hx, mulVec_xsMat x hx] at hx'
  have hy' := mulVec_mulMat (powMat xsMat 32 4294967294) xsMat y
  rw [xs_left_inverse, mulVec_idMat y hy, mulVec_xsMat y hy] at hy'
  rw [hx', hy', h]

lemma xorshift32_iterate_inj : ∀ (k x y : Nat), x < 2 ^ 32 → y < 2 ^ 32 →
    xorshift32^[k] x = xorshift32^[k] y → x = y := by
  intro k
  induction k with
  | zero => intro x y _ _ h; simpa using h
  | succ k ih =>
    intro x y hx hy h
    rw [Function.iterate_succ_apply, Function.iterate_succ_apply] at h
    exact xorshift32_inj x y hx hy
      (ih _ _ (xorshift32_lt x) (xorshift32_lt y) h)

lemma seed_iter_lt (n : Nat) : xorshift32^[n] SEED0 < 2 ^ 32 := by
  induction n with
  | zero =>
    simp only [Function.iterate_zero_apply]
    norm_num [SEED0]
  | succ n ih =>
    rw [Function.iterate_succ_apply']
    exact xorshift32_lt _

lemma mulVec_xsMat_iterate : ∀ (n v : Nat), v < 2 ^ 32 →
    (mulVec xsMat)^[n] v = xorshift32^[n] v := by
  intro n
  induction n with
  | zero => intro v _; rfl
  | succ n ih =>
    intro v hv
    rw [Function.iterate_succ_apply, Function.iterate_succ_apply,
      mulVec_xsMat v hv]
    exact ih _ (xorshift32_lt v)

lemma iterate_eq_matrix (n : Nat) (hn : n < 2 ^ 32) :
    xorshift32^[n] SEED0 = mulVec (powMat xsMat 32 n) SEED0 := by
  have hS : SEED0 < 2 ^ 32 := by norm_num [SEED0]
  rw [mulVec_powMat xsMat xsMat_entries_lt 32 n hn SEED0 hS]
  exact (mulVec_xsMat_iterate n SEED0 hS).symm

lemma ret_mul (a : Nat) (ha : xorshift32^[a] SEED0 = SEED0) :
    ∀ k, xorshift32^[k * a] SEED0 = SEED0 := by
  intro k
  induction k with
  | zero => simp
  | succ k ih =>
    rw [Nat.succ_mul, Function.iterate_add_apply, ha, ih]

lemma ret_of_dvd (a b : Nat) (ha : xorshift32^[a] SEED0 = SEED0)
    (hdvd : a ∣ b) : xorshift32^[b] SEED0 = SEED0 := by
  obtain ⟨k, rfl⟩ := hdvd
  rw [show a * k = k * a by ring]
  exact ret_mul a ha k

lemma ret_sub (a b : Nat) (ha : xorshift32^[a] SEED0 = SEED0)
    (hb : xorshift32^[b] SEED0 = SEED0) (hle : b ≤ a) :
    xorshift32^[a - b] SEED0 = SEED0 := by
  apply xorshift32_iterate_inj b _ _ (seed_iter_lt _) (by norm_num [SEED0])
  have h1 : xorshift32^[b + (a - b)] SEED0 = SEED0 := by
    rw [show b + (a - b) = a by omega]
    exact ha
  rw [Function.iterate_add_apply] at h1
  rw [h1, hb]

lemma ret_mod (b : Nat) (hb : xorshift32^[b] SEED0 = SEED0) (hb0 : 0 < b) :
    ∀ a, xorshift32^[a] SEED0 = SEED0 → xorshift32^[a % b] SEED0 = SEED0 := by
  intro a
  induction a using Nat.strong_induction_on with
  | _ a ih =>
    intro ha
    by_cases hab : a < b
    · rwa [Nat.mod_eq_of_lt hab]
    · push_neg at hab
      rw [Nat.mod_eq_sub_mod hab]
      exact ih (a - b) (by omega) (ret_sub a b ha hb hab)

lemma ret_gcd : ∀ a b : Nat, xorshift32^[a] SEED0 = SEED0 →
    xorshift32^[b] SEED0 = SEED0 → xorshift32^[Nat.gcd a b] SEED0 = SEED0 := by
  intro a
  induction a using Nat.strong_induction_on with
  | _ a ih =>
    intro b ha hb
    rcases Nat.eq_zero_or_pos a with rfl | ha0
    · rwa [Nat.gcd_zero_left]
    · rw [Nat.gcd_rec a b]
      exact ih (b % a) (Nat.mod_lt b ha0) a (ret_mod a ha ha0 b hb) ha

lemma proper_divisor_cofactor (g : Nat) (hg : g ∣ 4294967295)
    (hne : g ≠ 4294967295) :
    g ∣ 1431655765 ∨ g ∣ 858993459 ∨ g ∣ 252645135 ∨ g ∣ 16711935 ∨
      g ∣ 65535 := by
  obtain ⟨q, hq⟩ := hg
  by_cases h3 : 3 ∣ q
  · left
    obtain ⟨t, ht⟩ := h3
    refine ⟨t, ?_⟩
    apply Nat.eq_of_mul_eq_mul_left (show 0 < 3 by norm_num)
    rw [show (3 : Nat) * 1431655765 = 4294967295 by norm_num, hq, ht]
    ring
  by_cases h5 : 5 ∣ q
  · right; left
    obtain ⟨t, ht⟩ := h5
    refine ⟨t, ?_⟩
    apply Nat.eq_of_mul_eq_mul_left (show 0 < 5 by norm_num)
    rw [show (5 : Nat) * 858993459 = 4294967295 by norm_num, hq, ht]
    ring
  by_cases h17 : 17 ∣ q
  · right; right; left
    obtain ⟨t, ht⟩ := h17
    refine ⟨t, ?_⟩
    apply Nat.eq_of_mul_eq_mul_left (show 0 < 17 by norm_num)
    rw [show (17 : Nat) * 252645135 = 4294967295 by norm_num, hq, ht]
    ring
  by_cases h257 : 257 ∣ q
  · right; right; right; left
    obtain ⟨t, ht⟩ := h257
    refine ⟨t, ?_⟩
    apply Nat.eq_of_mul_eq_mul_left (show 0 < 257 by norm_num)
    rw [show (257 : Nat) * 16711935 = 4294967295 by norm_num, hq, ht]
    ring
  by_cases h65537 : 65537 ∣ q
  · right; right; right; right
    obtain ⟨t, ht⟩ := h65537
    refine ⟨t, ?_⟩
    apply Nat.eq_of_mul_eq_mul_left (show 0 < 65537 by norm_num)
    rw [show (65537 : Nat) * 65535 = 4294967295 by norm_num, hq, ht]
    ring
  · exfalso
    have p3 : Nat.Prime 3 := by norm_num
    have p5 : Nat.Prime 5 := by norm_num
    have p17 : Nat.Prime 17 := by norm_num
    have p257 : Nat.Prime 257 := by norm_num
    have p65537 : Nat.Prime 65537 := by norm_num
    have c3 : Nat.Coprime q 3 := ((p3.coprime_iff_not_dvd).mpr h3).symm
    have c5 : Nat.Coprime q 5 := ((p5.coprime_iff_not_dvd).mpr h5).symm
    have c17 : Nat.Coprime q 17 := ((p17.coprime_iff_not_dvd).mpr h17).symm
    have c257 : Nat.Coprime q 257 := ((p257.coprime_iff_not_dvd).mpr h257).symm
    have c65537 : Nat.Coprime q 65537 :=
      ((p65537.coprime_iff_not_dvd).mpr h65537).symm
    have hq1 : q ∣ 3 * 1431655765 := by
      rw [show (3 : Nat) * 1431655765 = 4294967295 by norm_num]
      exact ⟨g, by rw [hq]; ring⟩
    have hq2 : q ∣ 1431655765 := c3.dvd_of_dvd_mul_left hq1
    have hq3 : q ∣ 5 * 286331153 := by
      rw [show (5 : Nat) * 286331153 = 1431655765 by norm_num]
      exact hq2
    have hq4 : q ∣ 286331153 := c5.dvd_of_dvd_mul_left hq3
    have hq5 : q ∣ 17 * 16843009 := by
      rw [show (17 : Nat) * 16843009 = 286331153 by norm_num]
      exact hq4
    have hq6 : q ∣ 16843009 := c17.dvd_of_dvd_mul_left hq5
    have hq7 : q ∣ 257 * 65537 := by
      rw [show (257 : Nat) * 65537 = 16843009 by norm_num]
      exact hq6
    have hq8 : q ∣ 65537 := c257.dvd_of_dvd_mul_left hq7
    have hq9 : q = 1 := c65537.eq_one_of_dvd hq8
    rw [hq9, Nat.mul_one] at hq
    exact hne hq.symm

lemma no_early_return (d : Nat) (hd : 0 < d) (hlt : d < 4294967295) :
    xorshift32^[d] SEED0 ≠ SEED0 := by
  intro hP
  have hm : xorshift32^[4294967295] SEED0 = SEED0 := by
    rw [iterate_eq_matrix 4294967295 (by norm_num)]
    exact xs_cycle_full
  have hgcd : xorshift32^[Nat.gcd d 4294967295] SEED0 = SEED0 :=
    ret_gcd d 4294967295 hP hm
  have hgd : Nat.gcd d 4294967295 ∣ 4294967295 := Nat.gcd_dvd_right _ _
  have hgne : Nat.gcd d 4294967295 ≠ 4294967295 := by
    have h2 : Nat.gcd d 4294967295 ≤ d :=
      Nat.le_of_dvd hd (Nat.gcd_dvd_left _ _)
    omega
  rcases proper_divisor_cofactor _ hgd hgne with h | h | h | h | h
  · exact xs_cof3 (by
      rw [← iterate_eq_matrix 1431655765 (by norm_num)]
      exact ret_of_dvd _ _ hgcd h)
  · exact xs_cof5 (by
      rw [← iterate_eq_matrix 858993459 (by norm_num)]
      exact ret_of_dvd _ _ hgcd h)
  · exact xs_cof17 (by
      rw [← iterate_eq_matrix 252645135 (by norm_num)]
      exact ret_of_dvd _ _ hgcd h)
  · exact xs_cof257 (by
      rw [← iterate_eq_matrix 16711935 (by norm_num)]
      exact ret_of_dvd _ _ hgcd h)
  · exact xs_cof65537 (by
      rw [← iterate_eq_matrix 65535 (by norm_num)]
      exact ret_of_dvd _ _ hgcd h)

/-- C3: for every `N < 2 ^ 32`, the first `N` timestamps generated from the
fixed non-zero initial seed are pairwise distinct, and hence the `N`
activation tokens built from them (for any fixed hostname and pid) are
pairwise distinct; moreover the xorshift32 step never maps a non-zero 32-bit
seed to zero. -/
theorem timestamp_sequence_distinct :
    (∀ N, N < 2 ^ 32 → ∀ i, i < N → ∀ j, j < N → i ≠ j →
      timestampVal i ≠ timestampVal j ∧
      ∀ (hostname : Option (List Byte)) (pid : Nat),
        tokenAt hostname pid i ≠ tokenAt hostname pid j) ∧
    (∀ x, x < 2 ^ 32 → x ≠ 0 → xorshift32 x ≠ 0) := by
  have key : ∀ a b, a < b → b < 4294967295 →
      timestampVal a ≠ timestampVal b := by
    intro a b hab hb h
    rw [timestampVal_eq, timestampVal_eq] at h
    have hsplit : b = a + (b - a) := by omega
    rw [hsplit, Function.iterate_add_apply] at h
    have hSS := xorshift32_iterate_inj a SEED0 (xorshift32^[b - a] SEED0)
      (by norm_num [SEED0]) (seed_iter_lt _) h
    exact no_early_return (b - a) (by omega) (by omega) hSS.symm
  constructor
  · intro N hN i hi j hj hij
    have hts : timestampVal i ≠ timestampVal j := by
      rcases Nat.lt_or_ge i j with hlt | hge
      · exact key i j hlt (by omega)
      · have hlt : j < i := by omega
        exact (key j i hlt (by omega)).symm
    refine ⟨hts, ?_⟩
    intro hostname pid heq
    apply hts
    have h1 : tokenAt hostname pid i = Except.ok
        ((hostname.getD WINIT_FALLBACK) ++ decBytes pid ++ TIME_MARKER ++
          decBytes (timestampVal i)) := rfl
    have h2 : tokenAt hostname pid j = Except.ok
        ((hostname.getD WINIT_FALLBACK) ++ decBytes pid ++ TIME_MARKER ++
          decBytes (timestampVal j)) := rfl
    rw [h1, h2] at heq
    simp only [Except.ok.injEq] at heq
    have e1 := List.append_cancel_left heq
    exact decBytes_inj _ _ e1
  · intro x hx hx0 h0
    apply hx0
    apply xorshift32_inj x 0 hx (by norm_num)
    rw [h0, xorshift32_zero]

/-- Witness for `timestamp_sequence_distinct`: two calls give distinct
timestamps and distinct tokens, and the step does not annihilate the seed 1. -/
theorem timestamp_sequence_distinct_witness :
    timestampVal 0 ≠ timestampVal 1 ∧
    tokenAt none 1 0 ≠ tokenAt none 1 1 ∧
    xorshift32 1 ≠ 0 :=
  ⟨(timestamp_sequence_distinct.1 2 (by decide) 0 (by decide) 1 (by decide)
      (by decide)).1,
    (timestamp_sequence_distinct.1 2 (by decide) 0 (by decide) 1 (by decide)
      (by decide)).2 none 1,
    timestamp_sequence_distinct.2 1 (by decide) (by decide)⟩
